import Mathlib

/-!
Verification of the constrained-beam-search automaton builder of
`updown/modules/constraint.py` (updown-baseline).

The embedding covers the `_CBSMatrix` transition-tensor abstraction, the
lattice-wiring part of `CBSConstraint.get_state_matrix` (from the line
`self.M.init_matrix(26)` to the return), and `FreeConstraint.get_state_matrix`.
The detection-to-candidate pipeline (box loading, blacklist filtering, nms,
vocabulary lookup) is an external collaborator per spec sections 2 and 6; the
builder is therefore modelled as a function of the already-resolved candidate
list, where each candidate phrase is given as its list of per-word token-id
groups (the output of `target.split()` followed by `get_word_set` on each
word).

A transition tensor `[1][N][N][V]` is modelled as a total function
`Nat → Nat → Nat → Bool` (from-state, to-state, token) together with the
allocated state count `N`.  Out-of-range numpy writes raise `IndexError` in
the source, and `add_connect`/`init_row` assert that the tensor is allocated;
both failure modes are modelled with `Except BuildError`.
-/

namespace Updown

/-- A word group: token ids of the acceptable surface forms of one word
(result of `get_word_set`). -/
abbrev WordGroup := List Nat

/-- A candidate phrase, as the list of word groups of its words in order. -/
abbrev Phrase := List WordGroup

/-- Transition-tensor entries: `m a b t` is bit `[0, a, b, t]`. -/
abbrev Mat := Nat → Nat → Nat → Bool

/-- Failure modes of the builder: `assertFailed` models the
`assert self._matrix is not None` in `add_connect`/`init_row`;
`indexError` models a Python `IndexError` (an out-of-range numpy write, or
`level_mapping[i]` for `i ≥ 3`). -/
inductive BuildError where
  | assertFailed
  | indexError
deriving DecidableEq

/-- Ghost record of one `add_connect` call made by the builder. -/
structure Op where
  from_state : Nat
  to_state : Nat
  w_group : List Nat
deriving DecidableEq

/-- Ghost record of one chain wiring (one `add_connect` chain from `src` to
`dst` spelling a phrase of `words` word groups, consuming the auxiliary
states `lo, lo+1, ..., lo + (words-1) - 1`). -/
structure Chain where
  src : Nat
  dst : Nat
  lo : Nat
  words : Nat
deriving DecidableEq

/-- The auxiliary states consumed by one chain wiring. -/
def chainAux (c : Chain) : List Nat := List.range' c.lo (c.words - 1)

/-- Semantics of the loop body of `_CBSMatrix.add_connect`: for every
`w_index` in `w_group`, set `[0, from_state, to_state, w_index] = 1` and then
`[0, from_state, from_state, w_index] = 0` (so for `to_state = from_state`
the final value is 0, matching write order in the source). -/
def conMat (m : Mat) (from_state to_state : Nat) (w_group : List Nat) : Mat :=
  fun a b t =>
    if a = from_state ∧ t ∈ w_group then
      if b = from_state then false else if b = to_state then true else m a b t
    else m a b t

/-- Semantics of `_CBSMatrix.init_row`: `[0, s, s, :] = 1`. -/
def diagMat (m : Mat) (s : Nat) : Mat :=
  fun a b t => if a = s ∧ b = s then true else m a b t

/-- `_CBSMatrix.init_matrix(state_size)`: allocate an all-zero tensor.  The
`Option` is the `self._matrix` field, `none` before allocation. -/
def init_matrix (state_size : Nat) : Option (Mat × Nat) :=
  some (fun _ _ _ => false, state_size)

/-- `_CBSMatrix.add_connect`: asserts the tensor is allocated; a numpy write
with a state index `≥ state_size` raises `IndexError` (no write happens when
`w_group` is empty, so no bounds are touched then). -/
def add_connect (M : Option (Mat × Nat)) (from_state to_state : Nat)
    (w_group : List Nat) : Except BuildError (Mat × Nat) :=
  match M with
  | none => .error .assertFailed
  | some (m, n) =>
      if (from_state < n ∧ to_state < n) ∨ w_group = [] then
        .ok (conMat m from_state to_state w_group, n)
      else .error .indexError

/-- `_CBSMatrix.init_row`: asserts the tensor is allocated; an out-of-range
row raises `IndexError`. -/
def init_row (M : Option (Mat × Nat)) (state_index : Nat) :
    Except BuildError (Mat × Nat) :=
  match M with
  | none => .error .assertFailed
  | some (m, n) =>
      if state_index < n then .ok (diagMat m state_index, n)
      else .error .indexError

/-- State threaded through `CBSConstraint.get_state_matrix`: the `_CBSMatrix`
content (`mat`, `state_size`) and the local `start_additional_index`, plus
the ghost traces `ops` (every `add_connect` call, in order) and `chains`
(every chain wiring, in order). -/
structure BuildSt where
  mat : Mat
  state_size : Nat
  start_additional_index : Nat
  ops : List Op
  chains : List Chain

/-- One `self.M.add_connect(...)` call inside the builder (records the ghost
`Op`). -/
def bconnect (st : BuildSt) (from_state to_state : Nat) (w_group : List Nat) :
    Except BuildError BuildSt :=
  match add_connect (some (st.mat, st.state_size)) from_state to_state w_group with
  | .ok (m, n) =>
      .ok { st with mat := m, state_size := n,
                    ops := st.ops ++ [⟨from_state, to_state, w_group⟩] }
  | .error e => .error e

/-- Chain wiring for a 1-word phrase: the single
`add_connect(src, dst, g)` of the `len(word_list) == 1` branch (no auxiliary
state consumed). -/
def wire1 (src dst : Nat) (g : WordGroup) (st : BuildSt) :
    Except BuildError BuildSt :=
  match bconnect st src dst g with
  | .ok st1 =>
      .ok { st1 with chains :=
              st1.chains ++ [⟨src, dst, st1.start_additional_index, 1⟩] }
  | .error e => .error e

/-- Chain wiring for a 2-word phrase (`len(word_list) == 2` branch):
`add_connect(src, idx, g1); add_connect(idx, dst, g2); idx += 1`. -/
def wire2 (src dst : Nat) (g1 g2 : WordGroup) (st : BuildSt) :
    Except BuildError BuildSt :=
  match bconnect st src st.start_additional_index g1 with
  | .error e => .error e
  | .ok st1 =>
      match bconnect st1 st.start_additional_index dst g2 with
      | .error e => .error e
      | .ok st2 =>
          .ok { st2 with
                start_additional_index := st.start_additional_index + 1,
                chains := st2.chains ++
                  [⟨src, dst, st.start_additional_index, 2⟩] }

/-- Chain wiring for a 3-word phrase (`len(word_list) == 3` branch):
`add_connect(src, idx, g1); add_connect(idx, idx+1, g2);
add_connect(idx+1, dst, g3); idx += 2`. -/
def wire3 (src dst : Nat) (g1 g2 g3 : WordGroup) (st : BuildSt) :
    Except BuildError BuildSt :=
  match bconnect st src st.start_additional_index g1 with
  | .error e => .error e
  | .ok st1 =>
      match bconnect st1 st.start_additional_index
              (st.start_additional_index + 1) g2 with
      | .error e => .error e
      | .ok st2 =>
          match bconnect st2 (st.start_additional_index + 1) dst g3 with
          | .error e => .error e
          | .ok st3 =>
              .ok { st3 with
                    start_additional_index := st.start_additional_index + 2,
                    chains := st3.chains ++
                      [⟨src, dst, st.start_additional_index, 3⟩] }

/-- The table `level_mapping = [{3: 5, 2: 6}, {1: 6, 3: 4}, {1: 5, 2: 4}]`,
each dict as a lookup function. -/
def level_mapping : List (Nat → Option Nat) :=
  [fun j => if j = 3 then some 5 else if j = 2 then some 6 else none,
   fun j => if j = 1 then some 6 else if j = 3 then some 4 else none,
   fun j => if j = 1 then some 5 else if j = 2 then some 4 else none]

/-- `mapping = level_mapping[i]`: raises `IndexError` for `i ≥ 3`. -/
def getMapping (i : Nat) : Except BuildError (Nat → Option Nat) :=
  match level_mapping.get? i with
  | some mp => .ok mp
  | none => .error .indexError

/-- One iteration of `for j in range(1, 4): if j in mapping: ...` in the
1-word branch: `add_connect(j, mapping[j], group_w)`. -/
def mapStep1 (mp : Nat → Option Nat) (j : Nat) (g : WordGroup)
    (st : BuildSt) : Except BuildError BuildSt :=
  match mp j with
  | some tgt => wire1 j tgt g st
  | none => .ok st

/-- The `for j in range(1, 4)` loop of the 1-word branch, unrolled. -/
def mapLoop1 (mp : Nat → Option Nat) (g : WordGroup) (st : BuildSt) :
    Except BuildError BuildSt :=
  match mapStep1 mp 1 g st with
  | .error e => .error e
  | .ok st1 =>
      match mapStep1 mp 2 g st1 with
      | .error e => .error e
      | .ok st2 => mapStep1 mp 3 g st2

/-- One iteration of the mapping loop in the 2-word branch:
`add_connect(j, idx, s1); add_connect(idx, mapping[j], s2); idx += 1`. -/
def mapStep2 (mp : Nat → Option Nat) (j : Nat) (g1 g2 : WordGroup)
    (st : BuildSt) : Except BuildError BuildSt :=
  match mp j with
  | some tgt => wire2 j tgt g1 g2 st
  | none => .ok st

/-- The `for j in range(1, 4)` loop of the 2-word branch, unrolled. -/
def mapLoop2 (mp : Nat → Option Nat) (g1 g2 : WordGroup) (st : BuildSt) :
    Except BuildError BuildSt :=
  match mapStep2 mp 1 g1 g2 st with
  | .error e => .error e
  | .ok st1 =>
      match mapStep2 mp 2 g1 g2 st1 with
      | .error e => .error e
      | .ok st2 => mapStep2 mp 3 g1 g2 st2

/-- One iteration of the mapping loop in the 3-word branch:
`add_connect(j, idx, s1); add_connect(idx, idx+1, s2);
add_connect(idx+1, mapping[j], s3); idx += 2`. -/
def mapStep3 (mp : Nat → Option Nat) (j : Nat) (g1 g2 g3 : WordGroup)
    (st : BuildSt) : Except BuildError BuildSt :=
  match mp j with
  | some tgt => wire3 j tgt g1 g2 g3 st
  | none => .ok st

/-- The `for j in range(1, 4)` loop of the 3-word branch, unrolled. -/
def mapLoop3 (mp : Nat → Option Nat) (g1 g2 g3 : WordGroup) (st : BuildSt) :
    Except BuildError BuildSt :=
  match mapStep3 mp 1 g1 g2 g3 st with
  | .error e => .error e
  | .ok st1 =>
      match mapStep3 mp 2 g1 g2 g3 st1 with
      | .error e => .error e
      | .ok st2 => mapStep3 mp 3 g1 g2 g3 st2

/-- The `len(word_list) == 1` branch of the candidate loop:
`add_connect(0, i+1, g); add_connect(i+4, 7, g);
mapping = level_mapping[i]; for j in range(1, 4): ...`. -/
def branch1 (i : Nat) (g : WordGroup) (st : BuildSt) :
    Except BuildError BuildSt :=
  match wire1 0 (i + 1) g st with
  | .error e => .error e
  | .ok st1 =>
      match wire1 (i + 4) 7 g st1 with
      | .error e => .error e
      | .ok st2 =>
          match getMapping i with
          | .error e => .error e
          | .ok mp => mapLoop1 mp g st2

/-- The `len(word_list) == 2` branch of the candidate loop. -/
def branch2 (i : Nat) (g1 g2 : WordGroup) (st : BuildSt) :
    Except BuildError BuildSt :=
  match wire2 0 (i + 1) g1 g2 st with
  | .error e => .error e
  | .ok st1 =>
      match wire2 (i + 4) 7 g1 g2 st1 with
      | .error e => .error e
      | .ok st2 =>
          match getMapping i with
          | .error e => .error e
          | .ok mp => mapLoop2 mp g1 g2 st2

/-- The `len(word_list) == 3` branch of the candidate loop. -/
def branch3 (i : Nat) (g1 g2 g3 : WordGroup) (st : BuildSt) :
    Except BuildError BuildSt :=
  match wire3 0 (i + 1) g1 g2 g3 st with
  | .error e => .error e
  | .ok st1 =>
      match wire3 (i + 4) 7 g1 g2 g3 st1 with
      | .error e => .error e
      | .ok st2 =>
          match getMapping i with
          | .error e => .error e
          | .ok mp => mapLoop3 mp g1 g2 g3 st2

/-- The body of `for i, target in enumerate(candidates)` for one candidate:
the three `len(word_list)` branches (a phrase of 0 or more than 3 words
matches no branch and is silently skipped, exactly as in the source, where
the `if/elif` chain has no `else`). -/
def wireOne (i : Nat) (target : Phrase) (st : BuildSt) :
    Except BuildError BuildSt :=
  match target with
  | [g] => branch1 i g st
  | [g1, g2] => branch2 i g1 g2 st
  | [g1, g2, g3] => branch3 i g1 g2 g3 st
  | _ => .ok st

/-- The whole `for i, target in enumerate(candidates)` loop, starting at
candidate index `i`. -/
def wireAll : Nat → List Phrase → BuildSt → Except BuildError BuildSt
  | _, [], st => .ok st
  | i, p :: rest, st =>
      match wireOne i p st with
      | .error e => .error e
      | .ok st1 => wireAll (i + 1) rest st1

/-- `self.M.init_matrix(26)` followed by `for i in range(26):
self.M.init_row(i)`. -/
def initTensor : Except BuildError (Mat × Nat) :=
  match init_matrix 26 with
  | none => .error .assertFailed
  | some p => (List.range 26).foldlM (fun q i => init_row (some q) i) p

/-- `CBSConstraint.get_state_matrix` from `self.M.init_matrix(26)` on,
keeping the full build state (with ghost traces). -/
def CBSConstraint.get_state_matrix_st (candidates : List Phrase) :
    Except BuildError BuildSt :=
  match initTensor with
  | .error e => .error e
  | .ok (m, n) => wireAll 0 candidates ⟨m, n, 8, [], []⟩

/-- `CBSConstraint.get_state_matrix`: returns
`(self.M.matrix, start_additional_index, len(candidates))`. -/
def CBSConstraint.get_state_matrix (candidates : List Phrase) :
    Except BuildError (Mat × Nat × Nat) :=
  match CBSConstraint.get_state_matrix_st candidates with
  | .error e => .error e
  | .ok st => .ok (st.mat, st.start_additional_index, candidates.length)

/-- `FreeConstraint.get_state_matrix`: `init_matrix(1); init_row(0);
return (matrix, 1, 0)`. -/
def FreeConstraint.get_state_matrix : Except BuildError (Mat × Nat × Nat) :=
  match init_row (init_matrix 1) 0 with
  | .error e => .error e
  | .ok (m, _) => .ok (m, 1, 0)

/-! Accessors projecting the build result, used to state the claims. -/

/-- The error produced by a build, if any. -/
def errOf (candidates : List Phrase) : Option BuildError :=
  match CBSConstraint.get_state_matrix_st candidates with
  | .error e => some e
  | .ok _ => none

/-- The `add_connect` call trace of a successful build (`[]` on failure). -/
def opsOf (candidates : List Phrase) : List Op :=
  match CBSConstraint.get_state_matrix_st candidates with
  | .error _ => []
  | .ok st => st.ops

/-- The chain-wiring trace of a successful build (`[]` on failure). -/
def chainsOf (candidates : List Phrase) : List Chain :=
  match CBSConstraint.get_state_matrix_st candidates with
  | .error _ => []
  | .ok st => st.chains

/-- The final `start_additional_index` of a successful build (0 on failure). -/
def idxOf (candidates : List Phrase) : Nat :=
  match CBSConstraint.get_state_matrix_st candidates with
  | .error _ => 0
  | .ok st => st.start_additional_index

/-- The transition tensor of a successful build (all-false on failure). -/
def matFun (candidates : List Phrase) : Mat :=
  match CBSConstraint.get_state_matrix_st candidates with
  | .error _ => fun _ _ _ => false
  | .ok st => st.mat

/-- The `(state count, candidate count)` pair returned by
`CBSConstraint.get_state_matrix` (`none` on failure). -/
def retOf (candidates : List Phrase) : Option (Nat × Nat) :=
  match CBSConstraint.get_state_matrix candidates with
  | .error _ => none
  | .ok (_, n, c) => some (n, c)

/-- The tensor returned by `FreeConstraint.get_state_matrix`. -/
def freeMatFun : Mat :=
  match FreeConstraint.get_state_matrix with
  | .error _ => fun _ _ _ => false
  | .ok (m, _, _) => m

/-- The `(state count, candidate count)` returned by
`FreeConstraint.get_state_matrix` (`none` on failure). -/
def freeRet : Option (Nat × Nat) :=
  match FreeConstraint.get_state_matrix with
  | .error _ => none
  | .ok (_, n, c) => some (n, c)

/-! Derived notions used by the claims. -/

/-- One `Op` applied to a tensor (replay semantics of the trace). -/
def applyOp (m : Mat) (op : Op) : Mat :=
  conMat m op.from_state op.to_state op.w_group

/-- Closed form of the tensor right after `init_matrix(26)` and the 26
`init_row` calls: every allocated row self-loops on every token. -/
def matInit : Mat :=
  fun a b _ => decide (a = b) && decide (a < 26)

/-- Nondeterministic runs of the automaton: `Reach M s ts u` holds when
consuming the token sequence `ts` can drive the decoder from state `s` to
state `u` along true tensor entries. -/
inductive Reach (M : Mat) : Nat → List Nat → Nat → Prop where
  | nil : ∀ s, Reach M s [] s
  | cons : ∀ s s1 t ts u, M s s1 t = true → Reach M s1 ts u →
      Reach M s (t :: ts) u

/-- `Tiling lo cs hi`: the chains `cs` consume the auxiliary indices of
`[lo, hi)` contiguously in order, each chain `c` taking
`[c.lo, c.lo + (c.words - 1))`. -/
def Tiling : Nat → List Chain → Nat → Prop
  | lo, [], hi => lo = hi
  | lo, c :: rest, hi => c.lo = lo ∧ Tiling (lo + (c.words - 1)) rest hi

/-- Invariant maintained by the builder loop: the tensor stays the 26-state
allocation, `start_additional_index` never drops below 8, the tensor is the
replay of the `add_connect` trace over the freshly initialized tensor, no
recorded call is a self-connect, and the chain wirings consume the auxiliary
indices `[8, start_additional_index)` contiguously. -/
def Inv (st : BuildSt) : Prop :=
  st.state_size = 26 ∧ 8 ≤ st.start_additional_index ∧
  st.mat = st.ops.foldl applyOp matInit ∧
  (∀ op ∈ st.ops, op.from_state ≠ op.to_state) ∧
  Tiling 8 st.chains st.start_additional_index

end Updown

namespace Updown

/-! Generic lemmas about replaying `add_connect` traces over a tensor. -/

/-- An `add_connect` never changes rows other than its `from_state` row. -/
theorem conMat_other (m : Mat) (f dst : Nat) (g : List Nat) (a b t : Nat)
    (h : ¬(a = f ∧ t ∈ g)) : conMat m f dst g a b t = m a b t := by
  simp only [conMat, h, if_false]

/-- Off-diagonal entries only ever flip from false to true under
`add_connect`. -/
theorem conMat_true_of (m : Mat) (f dst : Nat) (g : List Nat) (a b t : Nat)
    (hab : a ≠ b) (h : m a b t = true) : conMat m f dst g a b t = true := by
  unfold conMat
  split_ifs with h1 h2 h3
  · exact absurd (h1.1.trans h2.symm) hab
  · rfl
  · exact h
  · exact h

/-- Diagonal entries only ever flip from true to false under `add_connect`. -/
theorem conMat_diag_false (m : Mat) (f dst : Nat) (g : List Nat) (a t : Nat)
    (h : m a a t = false) : conMat m f dst g a a t = false := by
  unfold conMat
  split_ifs with h1 h2 h3
  · rfl
  · exact absurd h1.1 h2
  · exact absurd h1.1 h2
  · exact h

/-- Replaying a trace preserves true off-diagonal entries. -/
theorem foldl_applyOp_true (l : List Op) (m : Mat) (a b t : Nat)
    (hab : a ≠ b) (h : m a b t = true) :
    l.foldl applyOp m a b t = true := by
  induction l generalizing m with
  | nil => exact h
  | cons op rest ih =>
      exact ih _ (conMat_true_of m op.from_state op.to_state op.w_group a b t hab h)

/-- Replaying a trace preserves false diagonal entries. -/
theorem foldl_applyOp_diag_false (l : List Op) (m : Mat) (a t : Nat)
    (h : m a a t = false) : l.foldl applyOp m a a t = false := by
  induction l generalizing m with
  | nil => exact h
  | cons op rest ih =>
      exact ih _ (conMat_diag_false m op.from_state op.to_state op.w_group a t h)

/-- Replaying a trace leaves an entry alone when no call routes token `t`
outward from state `a`. -/
theorem foldl_applyOp_skip (l : List Op) (m : Mat) (a b t : Nat)
    (h : ∀ op ∈ l, ¬(a = op.from_state ∧ t ∈ op.w_group)) :
    l.foldl applyOp m a b t = m a b t := by
  induction l generalizing m with
  | nil => rfl
  | cons op rest ih =>
      rw [List.foldl_cons, ih _ fun o ho => h o (List.mem_cons_of_mem _ ho)]
      exact conMat_other m op.from_state op.to_state op.w_group a b t
        (h op (List.mem_cons_self _ _))

/-- A true entry after replaying a trace comes from the initial tensor or
from some call of the trace. -/
theorem foldl_applyOp_elim (l : List Op) (m : Mat) (a b t : Nat)
    (h : l.foldl applyOp m a b t = true) :
    m a b t = true ∨
      ∃ op ∈ l, op.from_state = a ∧ op.to_state = b ∧ t ∈ op.w_group := by
  induction l generalizing m with
  | nil => exact Or.inl h
  | cons op rest ih =>
      rcases ih _ h with h1 | ⟨op1, hmem, h2⟩
      · unfold applyOp conMat at h1
        by_cases c1 : a = op.from_state ∧ t ∈ op.w_group
        · rw [if_pos c1] at h1
          by_cases c2 : b = op.from_state
          · rw [if_pos c2] at h1
            exact absurd h1 Bool.false_ne_true
          · rw [if_neg c2] at h1
            by_cases c3 : b = op.to_state
            · exact Or.inr ⟨op, List.mem_cons_self _ _, c1.1.symm, c3.symm, c1.2⟩
            · rw [if_neg c3] at h1
              exact Or.inl h1
        · rw [if_neg c1] at h1
          exact Or.inl h1
      · exact Or.inr ⟨op1, List.mem_cons_of_mem _ hmem, h2⟩

/-- An edge recorded in the trace is present in the replayed tensor. -/
theorem foldl_applyOp_edge (l : List Op) (m : Mat) (a b : Nat) (g : List Nat)
    (t : Nat) (hmem : (⟨a, b, g⟩ : Op) ∈ l) (ht : t ∈ g) (hab : a ≠ b) :
    l.foldl applyOp m a b t = true := by
  obtain ⟨l1, l2, rfl⟩ := List.append_of_mem hmem
  rw [List.foldl_append, List.foldl_cons]
  refine foldl_applyOp_true l2 _ a b t hab ?_
  show conMat _ a b g a b t = true
  have hba : b ≠ a := Ne.symm hab
  simp [conMat, ht, hba]

end Updown

namespace Updown

/-! Characterization of the initialized tensor. -/

theorem initRow_fold (L : List Nat) (m : Mat) (n : Nat) (hL : ∀ i ∈ L, i < n) :
    L.foldlM (fun q i => init_row (some q) i) (m, n) =
      Except.ok (L.foldl (fun mm i => diagMat mm i) m, n) := by
  induction L generalizing m with
  | nil => rfl
  | cons i rest ih =>
      have hi : i < n := hL i (List.mem_cons_self _ _)
      rw [List.foldlM_cons]
      show (init_row (some (m, n)) i >>= fun q =>
        rest.foldlM (fun q j => init_row (some q) j) q) = _
      rw [init_row, if_pos hi]
      show rest.foldlM (fun q j => init_row (some q) j) (diagMat m i, n) = _
      rw [ih _ fun j hj => hL j (List.mem_cons_of_mem _ hj)]
      rfl

theorem foldl_diagMat (L : List Nat) (m : Mat) (a b t : Nat) :
    L.foldl (fun mm i => diagMat mm i) m a b t =
      (m a b t || (decide (a = b) && decide (a ∈ L))) := by
  induction L generalizing m with
  | nil => simp
  | cons i rest ih =>
      rw [List.foldl_cons, ih]
      unfold diagMat
      by_cases hc : a = i ∧ b = i
      · rcases hc with ⟨h1, h2⟩
        subst h1
        subst h2
        simp [List.mem_cons]
      · rw [if_neg hc]
        by_cases hab : a = b
        · subst hab
          have hi : ¬a = i := fun h => hc ⟨h, h⟩
          simp [List.mem_cons, hi]
        · simp [hab]

theorem initTensor_eq : initTensor = Except.ok (matInit, 26) := by
  have h0 : initTensor = (List.range 26).foldlM
      (fun q i => init_row (some q) i) ((fun _ _ _ => false : Mat), 26) := rfl
  rw [h0, initRow_fold _ _ _ (fun i hi => List.mem_range.mp hi)]
  have h1 : (List.foldl (fun mm i => diagMat mm i) (fun _ _ _ => false)
      (List.range 26) : Mat) = matInit := by
    funext a b t
    rw [foldl_diagMat]
    simp [matInit, List.mem_range]
  rw [h1]

theorem get_state_matrix_st_eq (cands : List Phrase) :
    CBSConstraint.get_state_matrix_st cands =
      wireAll 0 cands ⟨matInit, 26, 8, [], []⟩ := by
  unfold CBSConstraint.get_state_matrix_st
  rw [initTensor_eq]

end Updown

namespace Updown

/-! Structure of successful wiring steps. -/

theorem add_connect_some (m : Mat) (n f dst : Nat) (g : List Nat) :
    add_connect (some (m, n)) f dst g =
      if (f < n ∧ dst < n) ∨ g = [] then .ok (conMat m f dst g, n)
      else .error .indexError := rfl

theorem bconnect_eq_ok {st st1 : BuildSt} {f dst : Nat} {g : List Nat}
    (h : bconnect st f dst g = .ok st1) :
    st1 = { st with mat := conMat st.mat f dst g,
                    ops := st.ops ++ [⟨f, dst, g⟩] } := by
  by_cases hc : (f < st.state_size ∧ dst < st.state_size) ∨ g = []
  · have hb : bconnect st f dst g =
        .ok { st with mat := conMat st.mat f dst g,
                      ops := st.ops ++ [⟨f, dst, g⟩] } := by
      unfold bconnect
      rw [add_connect_some, if_pos hc]
    rw [hb] at h
    injection h with h2
    exact h2.symm
  · have hb : bconnect st f dst g = .error .indexError := by
      unfold bconnect
      rw [add_connect_some, if_neg hc]
    rw [hb] at h
    exact Except.noConfusion h

theorem wire1_eq_ok {st st2 : BuildSt} {src dst : Nat} {g : WordGroup}
    (h : wire1 src dst g st = .ok st2) :
    st2 = { st with
      mat := conMat st.mat src dst g,
      ops := st.ops ++ [⟨src, dst, g⟩],
      chains := st.chains ++ [⟨src, dst, st.start_additional_index, 1⟩] } := by
  unfold wire1 at h
  split at h
  · rename_i st1 hb
    injection h with h2
    rw [bconnect_eq_ok hb] at h2
    exact h2.symm
  · exact Except.noConfusion h

theorem wire2_eq_ok {st st2 : BuildSt} {src dst : Nat} {g1 g2 : WordGroup}
    (h : wire2 src dst g1 g2 st = .ok st2) :
    st2 = { st with
      mat := conMat (conMat st.mat src st.start_additional_index g1)
               st.start_additional_index dst g2,
      ops := st.ops ++ [⟨src, st.start_additional_index, g1⟩,
                        ⟨st.start_additional_index, dst, g2⟩],
      chains := st.chains ++ [⟨src, dst, st.start_additional_index, 2⟩],
      start_additional_index := st.start_additional_index + 1 } := by
  unfold wire2 at h
  split at h
  · exact Except.noConfusion h
  · rename_i st1 hb
    split at h
    · exact Except.noConfusion h
    · rename_i stm hb2
      injection h with h2
      rw [bconnect_eq_ok hb2, bconnect_eq_ok hb] at h2
      rw [← h2]
      cases st
      simp

theorem wire3_eq_ok {st st2 : BuildSt} {src dst : Nat} {g1 g2 g3 : WordGroup}
    (h : wire3 src dst g1 g2 g3 st = .ok st2) :
    st2 = { st with
      mat := conMat (conMat (conMat st.mat src st.start_additional_index g1)
               st.start_additional_index (st.start_additional_index + 1) g2)
               (st.start_additional_index + 1) dst g3,
      ops := st.ops ++ [⟨src, st.start_additional_index, g1⟩,
        ⟨st.start_additional_index, st.start_additional_index + 1, g2⟩,
        ⟨st.start_additional_index + 1, dst, g3⟩],
      chains := st.chains ++ [⟨src, dst, st.start_additional_index, 3⟩],
      start_additional_index := st.start_additional_index + 2 } := by
  unfold wire3 at h
  split at h
  · exact Except.noConfusion h
  · rename_i st1 hb
    split at h
    · exact Except.noConfusion h
    · rename_i stm hb2
      split at h
      · exact Except.noConfusion h
      · rename_i stn hb3
        injection h with h2
        rw [bconnect_eq_ok hb3, bconnect_eq_ok hb2, bconnect_eq_ok hb] at h2
        rw [← h2]
        cases st
        simp

/-! Facts about contiguous chain allocation. -/

theorem tiling_le (cs : List Chain) : ∀ lo hi, Tiling lo cs hi → lo ≤ hi := by
  induction cs with
  | nil => exact fun lo hi h => le_of_eq h
  | cons c rest ih =>
      exact fun lo hi h => le_trans (Nat.le_add_right _ _) (ih _ _ h.2)

theorem tiling_bounds (cs : List Chain) : ∀ lo hi, Tiling lo cs hi →
    ∀ c ∈ cs, lo ≤ c.lo ∧ c.lo + (c.words - 1) ≤ hi := by
  induction cs with
  | nil => intro lo hi h c hc; exact absurd hc (List.not_mem_nil c)
  | cons c rest ih =>
      intro lo hi h c1 hc1
      rcases List.mem_cons.mp hc1 with rfl | hmem
      · have h1 := h.1
        have h2 := tiling_le rest _ _ h.2
        omega
      · have h3 := ih _ _ h.2 c1 hmem
        omega

theorem tiling_ordered (cs : List Chain) : ∀ lo hi, Tiling lo cs hi →
    List.Pairwise (fun c1 c2 => c1.lo + (c1.words - 1) ≤ c2.lo) cs := by
  induction cs with
  | nil => exact fun lo hi _ => List.Pairwise.nil
  | cons c rest ih =>
      intro lo hi h
      refine List.Pairwise.cons ?_ (ih _ _ h.2)
      intro c2 hc2
      have hb := (tiling_bounds rest _ _ h.2 c2 hc2).1
      have h1 := h.1
      omega

theorem tiling_append (cs1 cs2 : List Chain) : ∀ lo mid hi,
    Tiling lo cs1 mid → Tiling mid cs2 hi → Tiling lo (cs1 ++ cs2) hi := by
  induction cs1 with
  | nil =>
      intro lo mid hi h1 h2
      rw [List.nil_append]
      rw [show lo = mid from h1]
      exact h2
  | cons c rest ih =>
      intro lo mid hi h1 h2
      exact ⟨h1.1, ih _ _ _ h1.2 h2⟩

end Updown

namespace Updown

/-! Preservation of the build invariant. -/

theorem tiling_single (c : Chain) (lo hi : Nat) (h1 : c.lo = lo)
    (h2 : lo + (c.words - 1) = hi) : Tiling lo [c] hi := by
  unfold Tiling
  exact ⟨h1, h2⟩

theorem wire1_inv {st st2 : BuildSt} {src dst : Nat} {g : WordGroup}
    (hsd : src ≠ dst) (hinv : Inv st) (h : wire1 src dst g st = .ok st2) :
    Inv st2 := by
  obtain ⟨h1, h2, h3, h4, h5⟩ := hinv
  rw [wire1_eq_ok h]
  refine ⟨h1, h2, ?_, ?_, ?_⟩
  · show conMat st.mat src dst g =
      (st.ops ++ [({ from_state := src, to_state := dst, w_group := g } : Op)]).foldl
        applyOp matInit
    rw [List.foldl_append, ← h3]
    rfl
  · intro op hop
    rcases List.mem_append.mp hop with hold | hnew
    · exact h4 op hold
    · rcases List.mem_singleton.mp hnew with rfl
      exact hsd
  · exact tiling_append _ _ _ _ _ h5 (tiling_single _ _ _ rfl rfl)

theorem wire2_inv {st st2 : BuildSt} {src dst : Nat} {g1 g2 : WordGroup}
    (hs : src < 8) (hd : dst < 8) (hinv : Inv st)
    (h : wire2 src dst g1 g2 st = .ok st2) : Inv st2 := by
  obtain ⟨h1, h2, h3, h4, h5⟩ := hinv
  rw [wire2_eq_ok h]
  refine ⟨h1, ?_, ?_, ?_, ?_⟩
  · show 8 ≤ st.start_additional_index + 1
    omega
  · show conMat (conMat st.mat src st.start_additional_index g1)
        st.start_additional_index dst g2 =
      (st.ops ++
        [({ from_state := src, to_state := st.start_additional_index,
            w_group := g1 } : Op),
         ({ from_state := st.start_additional_index, to_state := dst,
            w_group := g2 } : Op)]).foldl applyOp matInit
    rw [List.foldl_append, ← h3]
    rfl
  · intro op hop
    rcases List.mem_append.mp hop with hold | hnew
    · exact h4 op hold
    · rcases List.mem_cons.mp hnew with rfl | hnew1
      · show src ≠ st.start_additional_index
        omega
      · rcases List.mem_singleton.mp hnew1 with rfl
        show st.start_additional_index ≠ dst
        omega
  · exact tiling_append _ _ _ _ _ h5 (tiling_single _ _ _ rfl rfl)

theorem wire3_inv {st st2 : BuildSt} {src dst : Nat} {g1 g2 g3 : WordGroup}
    (hs : src < 8) (hd : dst < 8) (hinv : Inv st)
    (h : wire3 src dst g1 g2 g3 st = .ok st2) : Inv st2 := by
  obtain ⟨h1, h2, h3, h4, h5⟩ := hinv
  rw [wire3_eq_ok h]
  refine ⟨h1, ?_, ?_, ?_, ?_⟩
  · show 8 ≤ st.start_additional_index + 2
    omega
  · show conMat (conMat (conMat st.mat src st.start_additional_index g1)
        st.start_additional_index (st.start_additional_index + 1) g2)
        (st.start_additional_index + 1) dst g3 =
      (st.ops ++
        [({ from_state := src, to_state := st.start_additional_index,
            w_group := g1 } : Op),
         ({ from_state := st.start_additional_index,
            to_state := st.start_additional_index + 1, w_group := g2 } : Op),
         ({ from_state := st.start_additional_index + 1, to_state := dst,
            w_group := g3 } : Op)]).foldl applyOp matInit
    rw [List.foldl_append, ← h3]
    rfl
  · intro op hop
    rcases List.mem_append.mp hop with hold | hnew
    · exact h4 op hold
    · rcases List.mem_cons.mp hnew with rfl | hnew1
      · show src ≠ st.start_additional_index
        omega
      · rcases List.mem_cons.mp hnew1 with rfl | hnew2
        · show st.start_additional_index ≠ st.start_additional_index + 1
          omega
        · rcases List.mem_singleton.mp hnew2 with rfl
          show st.start_additional_index + 1 ≠ dst
          omega
  · exact tiling_append _ _ _ _ _ h5 (tiling_single _ _ _ rfl rfl)

theorem level_mapping_prop {mp : Nat → Option Nat} (hmem : mp ∈ level_mapping) :
    ∀ k tgt, mp k = some tgt → k < 8 ∧ tgt < 8 ∧ k ≠ tgt := by
  intro k tgt h
  have h3 : mp = (fun j => if j = 3 then some 5 else
        if j = 2 then some 6 else none) ∨
      mp = (fun j => if j = 1 then some 6 else
        if j = 3 then some 4 else none) ∨
      mp = (fun j => if j = 1 then some 5 else
        if j = 2 then some 4 else none) := by
    simpa [level_mapping] using hmem
  rcases h3 with rfl | rfl | rfl <;>
    · dsimp only at h
      split_ifs at h with h1 h2 <;>
        first
          | exact Option.noConfusion h
          | (injection h with h4; omega)

theorem getMapping_ok {i : Nat} {mp : Nat → Option Nat}
    (h : getMapping i = .ok mp) :
    i < 3 ∧ mp ∈ level_mapping := by
  unfold getMapping at h
  split at h
  · rename_i mp1 hm
    injection h with h2
    subst h2
    constructor
    · have hlen := (List.get?_eq_some.mp hm).1
      simpa [level_mapping] using hlen
    · exact List.get?_mem hm
  · exact Except.noConfusion h

theorem mapStep1_inv {mp : Nat → Option Nat} {j : Nat} {g : WordGroup}
    {st st2 : BuildSt}
    (hmp : ∀ k tgt, mp k = some tgt → k < 8 ∧ tgt < 8 ∧ k ≠ tgt)
    (hinv : Inv st) (h : mapStep1 mp j g st = .ok st2) : Inv st2 := by
  unfold mapStep1 at h
  split at h
  · rename_i tgt htgt
    exact wire1_inv (hmp j tgt htgt).2.2 hinv h
  · injection h with h2
    rw [← h2]
    exact hinv

theorem mapStep2_inv {mp : Nat → Option Nat} {j : Nat} {g1 g2 : WordGroup}
    {st st2 : BuildSt}
    (hmp : ∀ k tgt, mp k = some tgt → k < 8 ∧ tgt < 8 ∧ k ≠ tgt)
    (hinv : Inv st) (h : mapStep2 mp j g1 g2 st = .ok st2) : Inv st2 := by
  unfold mapStep2 at h
  split at h
  · rename_i tgt htgt
    exact wire2_inv (hmp j tgt htgt).1 (hmp j tgt htgt).2.1 hinv h
  · injection h with h2
    rw [← h2]
    exact hinv

theorem mapStep3_inv {mp : Nat → Option Nat} {j : Nat} {g1 g2 g3 : WordGroup}
    {st st2 : BuildSt}
    (hmp : ∀ k tgt, mp k = some tgt → k < 8 ∧ tgt < 8 ∧ k ≠ tgt)
    (hinv : Inv st) (h : mapStep3 mp j g1 g2 g3 st = .ok st2) : Inv st2 := by
  unfold mapStep3 at h
  split at h
  · rename_i tgt htgt
    exact wire3_inv (hmp j tgt htgt).1 (hmp j tgt htgt).2.1 hinv h
  · injection h with h2
    rw [← h2]
    exact hinv

theorem mapLoop1_inv {mp : Nat → Option Nat} {g : WordGroup} {st st2 : BuildSt}
    (hmp : ∀ k tgt, mp k = some tgt → k < 8 ∧ tgt < 8 ∧ k ≠ tgt)
    (hinv : Inv st) (h : mapLoop1 mp g st = .ok st2) : Inv st2 := by
  unfold mapLoop1 at h
  split at h
  · exact Except.noConfusion h
  · rename_i st1 hs1
    split at h
    · exact Except.noConfusion h
    · rename_i stm hs2
      exact mapStep1_inv hmp (mapStep1_inv hmp (mapStep1_inv hmp hinv hs1) hs2) h

theorem mapLoop2_inv {mp : Nat → Option Nat} {g1 g2 : WordGroup}
    {st st2 : BuildSt}
    (hmp : ∀ k tgt, mp k = some tgt → k < 8 ∧ tgt < 8 ∧ k ≠ tgt)
    (hinv : Inv st) (h : mapLoop2 mp g1 g2 st = .ok st2) : Inv st2 := by
  unfold mapLoop2 at h
  split at h
  · exact Except.noConfusion h
  · rename_i st1 hs1
    split at h
    · exact Except.noConfusion h
    · rename_i stm hs2
      exact mapStep2_inv hmp (mapStep2_inv hmp (mapStep2_inv hmp hinv hs1) hs2) h

theorem mapLoop3_inv {mp : Nat → Option Nat} {g1 g2 g3 : WordGroup}
    {st st2 : BuildSt}
    (hmp : ∀ k tgt, mp k = some tgt → k < 8 ∧ tgt < 8 ∧ k ≠ tgt)
    (hinv : Inv st) (h : mapLoop3 mp g1 g2 g3 st = .ok st2) : Inv st2 := by
  unfold mapLoop3 at h
  split at h
  · exact Except.noConfusion h
  · rename_i st1 hs1
    split at h
    · exact Except.noConfusion h
    · rename_i stm hs2
      exact mapStep3_inv hmp (mapStep3_inv hmp (mapStep3_inv hmp hinv hs1) hs2) h

end Updown

namespace Updown

theorem branch1_inv {i : Nat} {g : WordGroup} {st st2 : BuildSt}
    (hinv : Inv st) (h : branch1 i g st = .ok st2) : Inv st2 := by
  unfold branch1 at h
  split at h
  · exact Except.noConfusion h
  · rename_i st1 hw1
    split at h
    · exact Except.noConfusion h
    · rename_i stb hw2
      split at h
      · exact Except.noConfusion h
      · rename_i mp hmp
        obtain ⟨hi3, hmem⟩ := getMapping_ok hmp
        have inv1 := wire1_inv (show (0 : Nat) ≠ i + 1 by omega) hinv hw1
        have inv2 := wire1_inv (show i + 4 ≠ 7 by omega) inv1 hw2
        exact mapLoop1_inv (level_mapping_prop hmem) inv2 h

theorem branch2_inv {i : Nat} {g1 g2 : WordGroup} {st st2 : BuildSt}
    (hinv : Inv st) (h : branch2 i g1 g2 st = .ok st2) : Inv st2 := by
  unfold branch2 at h
  split at h
  · exact Except.noConfusion h
  · rename_i st1 hw1
    split at h
    · exact Except.noConfusion h
    · rename_i stb hw2
      split at h
      · exact Except.noConfusion h
      · rename_i mp hmp
        obtain ⟨hi3, hmem⟩ := getMapping_ok hmp
        have inv1 := wire2_inv (show (0 : Nat) < 8 by omega)
          (show i + 1 < 8 by omega) hinv hw1
        have inv2 := wire2_inv (show i + 4 < 8 by omega)
          (show (7 : Nat) < 8 by omega) inv1 hw2
        exact mapLoop2_inv (level_mapping_prop hmem) inv2 h

theorem branch3_inv {i : Nat} {g1 g2 g3 : WordGroup} {st st2 : BuildSt}
    (hinv : Inv st) (h : branch3 i g1 g2 g3 st = .ok st2) : Inv st2 := by
  unfold branch3 at h
  split at h
  · exact Except.noConfusion h
  · rename_i st1 hw1
    split at h
    · exact Except.noConfusion h
    · rename_i stb hw2
      split at h
      · exact Except.noConfusion h
      · rename_i mp hmp
        obtain ⟨hi3, hmem⟩ := getMapping_ok hmp
        have inv1 := wire3_inv (show (0 : Nat) < 8 by omega)
          (show i + 1 < 8 by omega) hinv hw1
        have inv2 := wire3_inv (show i + 4 < 8 by omega)
          (show (7 : Nat) < 8 by omega) inv1 hw2
        exact mapLoop3_inv (level_mapping_prop hmem) inv2 h

theorem wireOne_inv {i : Nat} {p : Phrase} {st st2 : BuildSt}
    (hinv : Inv st) (h : wireOne i p st = .ok st2) : Inv st2 := by
  rcases p with _ | ⟨g1, _ | ⟨g2, _ | ⟨g3, rest⟩⟩⟩
  · injection h with h2
    rw [← h2]
    exact hinv
  · exact branch1_inv hinv h
  · exact branch2_inv hinv h
  · rcases rest with _ | ⟨g4, rest1⟩
    · exact branch3_inv hinv h
    · injection h with h2
      rw [← h2]
      exact hinv

theorem wireAll_inv : ∀ (l : List Phrase) (i : Nat) (st st2 : BuildSt),
    Inv st → wireAll i l st = .ok st2 → Inv st2 := by
  intro l
  induction l with
  | nil =>
      intro i st st2 hinv h
      injection h with h2
      rw [← h2]
      exact hinv
  | cons p rest ih =>
      intro i st st2 hinv h
      unfold wireAll at h
      split at h
      · exact Except.noConfusion h
      · rename_i st1 h1
        exact ih _ _ _ (wireOne_inv hinv h1) h

theorem build_inv {cands : List Phrase} {st : BuildSt}
    (h : CBSConstraint.get_state_matrix_st cands = .ok st) : Inv st := by
  rw [get_state_matrix_st_eq] at h
  refine wireAll_inv cands 0 _ st ?_ h
  refine ⟨rfl, le_refl 8, rfl, ?_, rfl⟩
  intro op hop
  exact absurd hop (List.not_mem_nil op)

/-! Projection equations for the accessors. -/

theorem ok_of_errOf_none {cands : List Phrase} (h : errOf cands = none) :
    ∃ st, CBSConstraint.get_state_matrix_st cands = .ok st := by
  unfold errOf at h
  split at h
  · exact Option.noConfusion h
  · rename_i st hst
    exact ⟨st, hst⟩

theorem matFun_eq {cands : List Phrase} {st : BuildSt}
    (h : CBSConstraint.get_state_matrix_st cands = .ok st) :
    matFun cands = st.mat := by
  unfold matFun
  rw [h]

theorem opsOf_eq {cands : List Phrase} {st : BuildSt}
    (h : CBSConstraint.get_state_matrix_st cands = .ok st) :
    opsOf cands = st.ops := by
  unfold opsOf
  rw [h]

theorem chainsOf_eq {cands : List Phrase} {st : BuildSt}
    (h : CBSConstraint.get_state_matrix_st cands = .ok st) :
    chainsOf cands = st.chains := by
  unfold chainsOf
  rw [h]

theorem idxOf_eq {cands : List Phrase} {st : BuildSt}
    (h : CBSConstraint.get_state_matrix_st cands = .ok st) :
    idxOf cands = st.start_additional_index := by
  unfold idxOf
  rw [h]

/-- Summary of the build invariant through the accessors: on any successful
build the returned tensor is the replay of the call trace over the
initialized tensor, no recorded call is a self-connect, and the chains tile
`[8, start_additional_index)`. -/
theorem build_facts {cands : List Phrase} (h : errOf cands = none) :
    matFun cands = (opsOf cands).foldl applyOp matInit ∧
    (∀ op ∈ opsOf cands, op.from_state ≠ op.to_state) ∧
    8 ≤ idxOf cands ∧ Tiling 8 (chainsOf cands) (idxOf cands) := by
  obtain ⟨st, hst⟩ := ok_of_errOf_none h
  have hinv := build_inv hst
  rw [matFun_eq hst, opsOf_eq hst, chainsOf_eq hst, idxOf_eq hst]
  exact ⟨hinv.2.2.1, hinv.2.2.2.1, hinv.2.1, hinv.2.2.2.2⟩

end Updown

namespace Updown

/-! Entry-level consequences of the build invariant. -/

/-- Any true entry of a successfully built tensor is a (surviving) self-loop
or was written by some recorded `add_connect` call. -/
theorem matFun_true_elim {cands : List Phrase} (hok : errOf cands = none)
    {a b t : Nat} (h : matFun cands a b t = true) :
    a = b ∨ ∃ op ∈ opsOf cands,
      op.from_state = a ∧ op.to_state = b ∧ t ∈ op.w_group := by
  obtain ⟨hreplay, hwf, hidx, htile⟩ := build_facts hok
  rw [hreplay] at h
  rcases foldl_applyOp_elim _ _ _ _ _ h with h1 | h2
  · left
    have h3 : a = b ∧ a < 26 := by simpa [matInit] using h1
    exact h3.1
  · exact Or.inr h2

/-- Every recorded `add_connect` edge is present in the final tensor. -/
theorem matFun_edge {cands : List Phrase} (hok : errOf cands = none)
    {a b : Nat} {g : List Nat} {t : Nat}
    (hmem : (⟨a, b, g⟩ : Op) ∈ opsOf cands) (ht : t ∈ g) (hab : a ≠ b) :
    matFun cands a b t = true := by
  obtain ⟨hreplay, hwf, hidx, htile⟩ := build_facts hok
  rw [hreplay]
  exact foldl_applyOp_edge _ _ _ _ _ _ hmem ht hab

/-- A build of three single-word candidates always succeeds. -/
theorem err3_none (g0 g1 g2 : WordGroup) : errOf [[g0], [g1], [g2]] = none := rfl

/-- The exact call trace of a build of three single-word candidates. -/
theorem ops3_eq (g0 g1 g2 : WordGroup) :
    opsOf [[g0], [g1], [g2]] =
      [⟨0, 1, g0⟩, ⟨4, 7, g0⟩, ⟨2, 6, g0⟩, ⟨3, 5, g0⟩,
       ⟨0, 2, g1⟩, ⟨5, 7, g1⟩, ⟨1, 6, g1⟩, ⟨3, 4, g1⟩,
       ⟨0, 3, g2⟩, ⟨6, 7, g2⟩, ⟨1, 5, g2⟩, ⟨2, 4, g2⟩] := rfl

/-- In the three-single-word-candidate automaton, state 0 only reaches the
tier-0/tier-1 states in one step. -/
theorem m3_from0 {g0 g1 g2 : WordGroup} {b t : Nat}
    (h : matFun [[g0], [g1], [g2]] 0 b t = true) :
    b = 0 ∨ b = 1 ∨ b = 2 ∨ b = 3 := by
  rcases matFun_true_elim (err3_none g0 g1 g2) h with h1 | ⟨op, hmem, hf, hto, hg⟩
  · exact Or.inl h1.symm
  · have h2 : (op.from_state, op.to_state) ∈
        (opsOf [[g0], [g1], [g2]]).map
          (fun o => (o.from_state, o.to_state)) :=
      List.mem_map_of_mem _ hmem
    have h3 : (opsOf [[g0], [g1], [g2]]).map
        (fun o => (o.from_state, o.to_state)) =
        [(0, 1), (4, 7), (2, 6), (3, 5), (0, 2), (5, 7), (1, 6), (3, 4),
         (0, 3), (6, 7), (1, 5), (2, 4)] := rfl
    rw [h3, hf, hto] at h2
    simp only [List.mem_cons, List.not_mem_nil, or_false, Prod.mk.injEq] at h2
    omega

/-- In the three-single-word-candidate automaton, only the tier-2 states
4, 5, 6 (and the terminal self-loop) step into state 7. -/
theorem m3_into7 {g0 g1 g2 : WordGroup} {a t : Nat}
    (h : matFun [[g0], [g1], [g2]] a 7 t = true) :
    a = 7 ∨ a = 4 ∨ a = 5 ∨ a = 6 := by
  rcases matFun_true_elim (err3_none g0 g1 g2) h with h1 | ⟨op, hmem, hf, hto, hg⟩
  · exact Or.inl h1
  · have h2 : (op.from_state, op.to_state) ∈
        (opsOf [[g0], [g1], [g2]]).map
          (fun o => (o.from_state, o.to_state)) :=
      List.mem_map_of_mem _ hmem
    have h3 : (opsOf [[g0], [g1], [g2]]).map
        (fun o => (o.from_state, o.to_state)) =
        [(0, 1), (4, 7), (2, 6), (3, 5), (0, 2), (5, 7), (1, 6), (3, 4),
         (0, 3), (6, 7), (1, 5), (2, 4)] := rfl
    rw [h3, hf, hto] at h2
    simp only [List.mem_cons, List.not_mem_nil, or_false, Prod.mk.injEq] at h2
    omega

end Updown

namespace Updown

/-- Claim C1 counterexample: for the candidate list ["dog", "frisbee"]
(dog resolving to token 10, frisbee to token 11) the build does use the 8
fixed states and reports candidate count 2, but terminal state 7 is NOT
reachable via token(dog) then token(frisbee), nor via token(frisbee) then
token(dog): both orders end in tier-2 state 6, refuting the claim for K = 2.
-/
theorem C1_counterexample :
    retOf [[[10]], [[11]]] = some (8, 2) ∧
    ¬ Reach (matFun [[[10]], [[11]]]) 0 [10, 11] 7 ∧
    ¬ Reach (matFun [[[10]], [[11]]]) 0 [11, 10] 7 ∧
    Reach (matFun [[[10]], [[11]]]) 0 [10, 11] 6 ∧
    Reach (matFun [[[10]], [[11]]]) 0 [11, 10] 6 := by
  have hok : errOf [[[10]], [[11]]] = none := rfl
  have hops : opsOf [[[10]], [[11]]] =
      [⟨0, 1, [10]⟩, ⟨4, 7, [10]⟩, ⟨2, 6, [10]⟩, ⟨3, 5, [10]⟩,
       ⟨0, 2, [11]⟩, ⟨5, 7, [11]⟩, ⟨1, 6, [11]⟩, ⟨3, 4, [11]⟩] := rfl
  refine ⟨rfl, ?_, ?_, ?_, ?_⟩
  · intro hr
    cases hr
    rename_i s1 hedge htail
    cases htail
    rename_i s2 hedge2 htail2
    cases htail2
    have h1 : s1 = 0 ∨ s1 = 1 := by
      rcases matFun_true_elim hok hedge with h | ⟨op, hmem, hf, hto, hg⟩
      · exact Or.inl h.symm
      · rw [hops] at hmem
        simp only [List.mem_cons, List.not_mem_nil, or_false] at hmem
        rcases hmem with rfl | rfl | rfl | rfl | rfl | rfl | rfl | rfl <;>
          simp_all
    have h2 : s1 = 7 ∨ s1 = 5 := by
      rcases matFun_true_elim hok hedge2 with h | ⟨op, hmem, hf, hto, hg⟩
      · exact Or.inl h
      · rw [hops] at hmem
        simp only [List.mem_cons, List.not_mem_nil, or_false] at hmem
        rcases hmem with rfl | rfl | rfl | rfl | rfl | rfl | rfl | rfl <;>
          simp_all
    omega
  · intro hr
    cases hr
    rename_i s1 hedge htail
    cases htail
    rename_i s2 hedge2 htail2
    cases htail2
    have h1 : s1 = 0 ∨ s1 = 2 := by
      rcases matFun_true_elim hok hedge with h | ⟨op, hmem, hf, hto, hg⟩
      · exact Or.inl h.symm
      · rw [hops] at hmem
        simp only [List.mem_cons, List.not_mem_nil, or_false] at hmem
        rcases hmem with rfl | rfl | rfl | rfl | rfl | rfl | rfl | rfl <;>
          simp_all
    have h2 : s1 = 7 ∨ s1 = 4 := by
      rcases matFun_true_elim hok hedge2 with h | ⟨op, hmem, hf, hto, hg⟩
      · exact Or.inl h
      · rw [hops] at hmem
        simp only [List.mem_cons, List.not_mem_nil, or_false] at hmem
        rcases hmem with rfl | rfl | rfl | rfl | rfl | rfl | rfl | rfl <;>
          simp_all
    omega
  · exact Reach.cons 0 1 10 [11] 6 (by rfl)
      (Reach.cons 1 6 11 [] 6 (by rfl) (Reach.nil 6))
  · exact Reach.cons 0 2 11 [10] 6 (by rfl)
      (Reach.cons 2 6 10 [] 6 (by rfl) (Reach.nil 6))

/-- Claim C1 amended: for a candidate list of exactly 3 single-word phrases,
terminal state 7 is reachable from state 0 by consuming one token from each
candidate's word group in every permutation order, and no token sequence
shorter than 3 reaches state 7; the K = 2 part of the original claim fails
(see the counterexample: ["dog", "frisbee"] uses the 8 fixed states and
reports count 2, but both consumption orders end in state 6, not 7). -/
theorem C1_amended (g0 g1 g2 : WordGroup) (t0 t1 t2 : Nat)
    (ht0 : t0 ∈ g0) (ht1 : t1 ∈ g1) (ht2 : t2 ∈ g2) :
    retOf [[g0], [g1], [g2]] = some (8, 3) ∧
    Reach (matFun [[g0], [g1], [g2]]) 0 [t0, t1, t2] 7 ∧
    Reach (matFun [[g0], [g1], [g2]]) 0 [t0, t2, t1] 7 ∧
    Reach (matFun [[g0], [g1], [g2]]) 0 [t1, t0, t2] 7 ∧
    Reach (matFun [[g0], [g1], [g2]]) 0 [t1, t2, t0] 7 ∧
    Reach (matFun [[g0], [g1], [g2]]) 0 [t2, t0, t1] 7 ∧
    Reach (matFun [[g0], [g1], [g2]]) 0 [t2, t1, t0] 7 ∧
    ∀ ts : List Nat, ts.length < 3 →
      ¬ Reach (matFun [[g0], [g1], [g2]]) 0 ts 7 := by
  have hok : errOf [[g0], [g1], [g2]] = none := err3_none g0 g1 g2
  have e01 : matFun [[g0], [g1], [g2]] 0 1 t0 = true :=
    matFun_edge hok (by simp [ops3_eq]) ht0 (by omega)
  have e02 : matFun [[g0], [g1], [g2]] 0 2 t1 = true :=
    matFun_edge hok (by simp [ops3_eq]) ht1 (by omega)
  have e03 : matFun [[g0], [g1], [g2]] 0 3 t2 = true :=
    matFun_edge hok (by simp [ops3_eq]) ht2 (by omega)
  have e16 : matFun [[g0], [g1], [g2]] 1 6 t1 = true :=
    matFun_edge hok (by simp [ops3_eq]) ht1 (by omega)
  have e15 : matFun [[g0], [g1], [g2]] 1 5 t2 = true :=
    matFun_edge hok (by simp [ops3_eq]) ht2 (by omega)
  have e26 : matFun [[g0], [g1], [g2]] 2 6 t0 = true :=
    matFun_edge hok (by simp [ops3_eq]) ht0 (by omega)
  have e24 : matFun [[g0], [g1], [g2]] 2 4 t2 = true :=
    matFun_edge hok (by simp [ops3_eq]) ht2 (by omega)
  have e35 : matFun [[g0], [g1], [g2]] 3 5 t0 = true :=
    matFun_edge hok (by simp [ops3_eq]) ht0 (by omega)
  have e34 : matFun [[g0], [g1], [g2]] 3 4 t1 = true :=
    matFun_edge hok (by simp [ops3_eq]) ht1 (by omega)
  have e47 : matFun [[g0], [g1], [g2]] 4 7 t0 = true :=
    matFun_edge hok (by simp [ops3_eq]) ht0 (by omega)
  have e57 : matFun [[g0], [g1], [g2]] 5 7 t1 = true :=
    matFun_edge hok (by simp [ops3_eq]) ht1 (by omega)
  have e67 : matFun [[g0], [g1], [g2]] 6 7 t2 = true :=
    matFun_edge hok (by simp [ops3_eq]) ht2 (by omega)
  refine ⟨rfl, ?_, ?_, ?_, ?_, ?_, ?_, ?_⟩
  · exact Reach.cons 0 1 t0 [t1, t2] 7 e01
      (Reach.cons 1 6 t1 [t2] 7 e16 (Reach.cons 6 7 t2 [] 7 e67 (Reach.nil 7)))
  · exact Reach.cons 0 1 t0 [t2, t1] 7 e01
      (Reach.cons 1 5 t2 [t1] 7 e15 (Reach.cons 5 7 t1 [] 7 e57 (Reach.nil 7)))
  · exact Reach.cons 0 2 t1 [t0, t2] 7 e02
      (Reach.cons 2 6 t0 [t2] 7 e26 (Reach.cons 6 7 t2 [] 7 e67 (Reach.nil 7)))
  · exact Reach.cons 0 2 t1 [t2, t0] 7 e02
      (Reach.cons 2 4 t2 [t0] 7 e24 (Reach.cons 4 7 t0 [] 7 e47 (Reach.nil 7)))
  · exact Reach.cons 0 3 t2 [t0, t1] 7 e03
      (Reach.cons 3 5 t0 [t1] 7 e35 (Reach.cons 5 7 t1 [] 7 e57 (Reach.nil 7)))
  · exact Reach.cons 0 3 t2 [t1, t0] 7 e03
      (Reach.cons 3 4 t1 [t0] 7 e34 (Reach.cons 4 7 t0 [] 7 e47 (Reach.nil 7)))
  · intro ts hlen hr
    rcases ts with _ | ⟨u1, _ | ⟨u2, _ | ⟨u3, rest⟩⟩⟩
    · cases hr
    · cases hr
      rename_i s1 hedge htail
      cases htail
      rcases m3_from0 hedge with h | h | h | h <;> omega
    · cases hr
      rename_i s1 hedge htail
      cases htail
      rename_i s2 hedge2 htail2
      cases htail2
      have h1 := m3_from0 hedge
      have h2 := m3_into7 hedge2
      rcases h1 with h | h | h | h <;> rcases h2 with h4 | h4 | h4 | h4 <;> omega
    · simp at hlen
      omega

/-- Witness for the amended C1 theorem at the concrete word groups
[0], [1], [2] with tokens 0, 1, 2. -/
theorem C1_amended_witness :
    (0 : Nat) ∈ ([0] : List Nat) ∧
    (retOf [[[0]], [[1]], [[2]]] = some (8, 3) ∧
     Reach (matFun [[[0]], [[1]], [[2]]]) 0 [0, 1, 2] 7 ∧
     Reach (matFun [[[0]], [[1]], [[2]]]) 0 [0, 2, 1] 7 ∧
     Reach (matFun [[[0]], [[1]], [[2]]]) 0 [1, 0, 2] 7 ∧
     Reach (matFun [[[0]], [[1]], [[2]]]) 0 [1, 2, 0] 7 ∧
     Reach (matFun [[[0]], [[1]], [[2]]]) 0 [2, 0, 1] 7 ∧
     Reach (matFun [[[0]], [[1]], [[2]]]) 0 [2, 1, 0] 7 ∧
     ∀ ts : List Nat, ts.length < 3 →
       ¬ Reach (matFun [[[0]], [[1]], [[2]]]) 0 ts 7) :=
  ⟨by decide, C1_amended [0] [1] [2] 0 1 2 (by decide) (by decide) (by decide)⟩

end Updown

namespace Updown

/-- Claim C2 counterexample: take one single-word candidate (index 0) whose
word group is [10].  The claim predicts connections tier-1(candidate 2) =
state 3 → tier-2 state 6 and tier-1(candidate 1) = state 2 → tier-2 state 5,
but the built tensor has [3][6][10] and [2][5][10] false while [3][5][10]
and [2][6][10] are true: the two targets are swapped relative to the claim.
-/
theorem C2_counterexample :
    matFun [[[10]]] 3 6 10 = false ∧ matFun [[[10]]] 2 5 10 = false ∧
    matFun [[[10]]] 3 5 10 = true ∧ matFun [[[10]]] 2 6 10 = true := by
  exact ⟨rfl, rfl, rfl, rfl⟩

/-- Claim C2 amended: the tier-1-to-tier-2 wiring of the builder follows the
table `level_mapping = [{3: 5, 2: 6}, {1: 6, 3: 4}, {1: 5, 2: 4}]`: for
candidate 0 it connects state 3 (tier-1 of candidate 2) to tier-2 state 5
and state 2 (tier-1 of candidate 1) to tier-2 state 6; for candidate 1 it
connects state 1 to 6 and state 3 to 4; for candidate 2 it connects state 1
to 5 and state 2 to 4 — shown here as the exact call trace of a build of
three single-word candidates. -/
theorem C2_amended (g0 g1 g2 : WordGroup) :
    opsOf [[g0], [g1], [g2]] =
      [⟨0, 1, g0⟩, ⟨4, 7, g0⟩, ⟨2, 6, g0⟩, ⟨3, 5, g0⟩,
       ⟨0, 2, g1⟩, ⟨5, 7, g1⟩, ⟨1, 6, g1⟩, ⟨3, 4, g1⟩,
       ⟨0, 3, g2⟩, ⟨6, 7, g2⟩, ⟨1, 5, g2⟩, ⟨2, 4, g2⟩] :=
  ops3_eq g0 g1 g2

/-- Claim C3 counterexample: for the empty candidate list the builder
returns state count 8 (not 1) with candidate count 0, and rows other than
state 0 (here state 5) are also initialized and self-looping. -/
theorem C3_counterexample :
    retOf [] = some (8, 0) ∧ retOf [] ≠ some (1, 0) ∧
    matFun [] 5 5 0 = true := by
  exact ⟨rfl, by decide, rfl⟩

/-- Claim C3 amended: for the empty candidate list the builder returns
state count 8 and candidate count 0, performs no connect call, and returns
a tensor in which all 26 allocated states (not only state 0) are
initialized, each self-looping on every token. -/
theorem C3_amended :
    retOf [] = some (8, 0) ∧ opsOf [] = [] ∧
    ∀ a b t : Nat, matFun [] a b t = (decide (a = b) && decide (a < 26)) := by
  refine ⟨rfl, rfl, ?_⟩
  intro a b t
  have hok : CBSConstraint.get_state_matrix_st ([] : List Phrase) =
      .ok ⟨matInit, 26, 8, [], []⟩ := by
    rw [get_state_matrix_st_eq]
    rfl
  rw [matFun_eq hok]
  rfl

/-- Claim C4 (code bug): for a candidate list of 3 phrases of 3 words each
(word groups [1]..[9]), the wiring needs auxiliary states 8..31, i.e. 24
auxiliary states on top of the 8 fixed ones, but `init_matrix(26)` only
allocates 26 states; the build aborts with an IndexError on the numpy write
`add_connect(6, 26, ...)` instead of staying in bounds. -/
theorem C4_out_of_bounds :
    errOf [[[1], [2], [3]], [[4], [5], [6]], [[7], [8], [9]]] =
      some BuildError.indexError := rfl

/-- Claim C8 counterexample: for the candidate list ["wood burning stove"]
(one candidate of 3 words, word groups [20], [21], [22]) the builder
returns state count 16 and candidate count 1 — not the claimed
8 + 4 = 12 — because auxiliary states are also consumed by the two
tier-1-to-tier-2 mapping chains, not only by the two internal chains. -/
theorem C8_counterexample :
    retOf [[[20], [21], [22]]] = some (16, 1) ∧
    retOf [[[20], [21], [22]]] ≠ some (12, 1) := by
  exact ⟨rfl, by decide⟩

/-- Claim C8 amended: for a single candidate of 3 words the builder wires
four chains — the two internal chains 0 → 8 → 9 → 1 and 4 → 10 → 11 → 7 AND
the two tier-1-to-tier-2 chains 2 → 12 → 13 → 6 and 3 → 14 → 15 → 5 from
the mapping table — each consuming 2 auxiliary states, and returns state
count 8 + 8 = 16 with candidate count 1. -/
theorem C8_amended (g1 g2 g3 : WordGroup) :
    retOf [[g1, g2, g3]] = some (16, 1) ∧
    chainsOf [[g1, g2, g3]] =
      [⟨0, 1, 8, 3⟩, ⟨4, 7, 10, 3⟩, ⟨2, 6, 12, 3⟩, ⟨3, 5, 14, 3⟩] ∧
    opsOf [[g1, g2, g3]] =
      [⟨0, 8, g1⟩, ⟨8, 9, g2⟩, ⟨9, 1, g3⟩,
       ⟨4, 10, g1⟩, ⟨10, 11, g2⟩, ⟨11, 7, g3⟩,
       ⟨2, 12, g1⟩, ⟨12, 13, g2⟩, ⟨13, 6, g3⟩,
       ⟨3, 14, g1⟩, ⟨14, 15, g2⟩, ⟨15, 5, g3⟩] :=
  ⟨rfl, rfl, rfl⟩

/-- Claim C10: FreeConstraint.get_state_matrix always returns the
degenerate automaton: state count 1, candidate count 0, and a tensor whose
only true entries are the self-loops of state 0 on every token. -/
theorem C10_free_constraint :
    freeRet = some (1, 0) ∧
    ∀ a b t : Nat, freeMatFun a b t = (decide (a = 0) && decide (b = 0)) := by
  refine ⟨rfl, ?_⟩
  intro a b t
  show diagMat (fun _ _ _ => false) 0 a b t = _
  unfold diagMat
  by_cases ha : a = 0
  · by_cases hb : b = 0
    · simp [ha, hb]
    · simp [ha, hb]
  · simp [ha]

end Updown

namespace Updown

/-- Claim C5: forced progression.  For every `add_connect(from, to, g)` call
the builder makes (the call at position `|pre|` of the trace), and every
token `t` in `g`: right after that call the tensor (the replay of the trace
up to and including it) has `[from][to][t] = true` and
`[from][from][t] = false`, and both still hold in the tensor the build
returns. -/
theorem C5_forced_progression (cands : List Phrase) (pre suf : List Op)
    (op : Op) (hok : errOf cands = none)
    (hsplit : opsOf cands = pre ++ op :: suf) :
    ∀ t ∈ op.w_group,
      (pre ++ [op]).foldl applyOp matInit op.from_state op.to_state t = true ∧
      (pre ++ [op]).foldl applyOp matInit op.from_state op.from_state t
        = false ∧
      matFun cands op.from_state op.to_state t = true ∧
      matFun cands op.from_state op.from_state t = false := by
  obtain ⟨hreplay, hwf, hidx, htile⟩ := build_facts hok
  have hmem : op ∈ opsOf cands := by
    rw [hsplit]
    exact List.mem_append_right _ (List.mem_cons_self _ _)
  have hne : op.from_state ≠ op.to_state := hwf op hmem
  intro t ht
  have hafter :
      (pre ++ [op]).foldl applyOp matInit op.from_state op.to_state t
        = true := by
    rw [List.foldl_append]
    show conMat _ op.from_state op.to_state op.w_group
      op.from_state op.to_state t = true
    unfold conMat
    rw [if_pos ⟨rfl, ht⟩, if_neg (fun h => hne h.symm), if_pos rfl]
  have hafter2 :
      (pre ++ [op]).foldl applyOp matInit op.from_state op.from_state t
        = false := by
    rw [List.foldl_append]
    show conMat _ op.from_state op.to_state op.w_group
      op.from_state op.from_state t = false
    unfold conMat
    rw [if_pos ⟨rfl, ht⟩, if_pos rfl]
  have hdecomp : opsOf cands = (pre ++ [op]) ++ suf := by
    rw [hsplit]
    simp
  refine ⟨hafter, hafter2, ?_, ?_⟩
  · rw [hreplay, hdecomp, List.foldl_append]
    exact foldl_applyOp_true _ _ _ _ _ hne hafter
  · rw [hreplay, hdecomp, List.foldl_append]
    exact foldl_applyOp_diag_false _ _ _ _ hafter2

/-- Witness for claim C5 at the build for ["dog", "frisbee"] (word groups
[10] and [11]) and its first connect call `add_connect(0, 1, [10])`. -/
theorem C5_forced_progression_witness :
    errOf [[[10]], [[11]]] = none ∧
    opsOf [[[10]], [[11]]] = [] ++ (⟨0, 1, [10]⟩ : Op) ::
      [⟨4, 7, [10]⟩, ⟨2, 6, [10]⟩, ⟨3, 5, [10]⟩, ⟨0, 2, [11]⟩,
       ⟨5, 7, [11]⟩, ⟨1, 6, [11]⟩, ⟨3, 4, [11]⟩] ∧
    (10 : Nat) ∈ ([10] : List Nat) ∧
    (matFun [[[10]], [[11]]] 0 1 10 = true ∧
     matFun [[[10]], [[11]]] 0 0 10 = false) := by
  refine ⟨rfl, rfl, by decide, ?_⟩
  have h := C5_forced_progression [[[10]], [[11]]] []
    [⟨4, 7, [10]⟩, ⟨2, 6, [10]⟩, ⟨3, 5, [10]⟩, ⟨0, 2, [11]⟩,
     ⟨5, 7, [11]⟩, ⟨1, 6, [11]⟩, ⟨3, 4, [11]⟩]
    (⟨0, 1, [10]⟩ : Op) rfl rfl 10 (by decide)
  exact ⟨h.2.2.1, h.2.2.2⟩

/-- Claim C6: self-loop invariant.  In the tensor returned by a successful
build, for every initialized state `s` (all 26 rows are initialized) and
every token `t` that no `add_connect` call of the build routes outward from
`s`, the diagonal entry `[s][s][t]` is true. -/
theorem C6_self_loop (cands : List Phrase) (s t : Nat)
    (hok : errOf cands = none) (hs : s < 26)
    (hfree : ∀ op ∈ opsOf cands, ¬(op.from_state = s ∧ t ∈ op.w_group)) :
    matFun cands s s t = true := by
  obtain ⟨hreplay, hwf, hidx, htile⟩ := build_facts hok
  rw [hreplay, foldl_applyOp_skip _ _ _ _ _
    (fun op hop hcon => hfree op hop ⟨hcon.1.symm, hcon.2⟩)]
  simp [matInit, hs]

/-- Witness for claim C6 at the build for ["dog", "frisbee"], state 7 and
token 99 (not routed outward from state 7 by any call). -/
theorem C6_self_loop_witness :
    errOf [[[10]], [[11]]] = none ∧ (7 : Nat) < 26 ∧
    (∀ op ∈ opsOf [[[10]], [[11]]],
      ¬(op.from_state = 7 ∧ 99 ∈ op.w_group)) ∧
    matFun [[[10]], [[11]]] 7 7 99 = true := by
  exact ⟨rfl, by decide, by decide,
    C6_self_loop [[[10]], [[11]]] 7 99 rfl (by decide) (by decide)⟩

/-- Claim C9: in every successful build, every chain wiring draws its
auxiliary states from `[8, start_additional_index)` (auxiliary indices
start right after terminal state 7, at index 8), and no two chain wirings —
across candidates or within one candidate — share an auxiliary state index.
-/
theorem C9_aux_no_collision (cands : List Phrase)
    (hok : errOf cands = none) :
    (∀ c ∈ chainsOf cands, 8 ≤ c.lo ∧ c.lo + (c.words - 1) ≤ idxOf cands) ∧
    List.Pairwise (fun c1 c2 => ∀ s, s ∈ chainAux c1 → s ∉ chainAux c2)
      (chainsOf cands) := by
  obtain ⟨hreplay, hwf, hidx, htile⟩ := build_facts hok
  constructor
  · exact tiling_bounds _ _ _ htile
  · have hord := tiling_ordered _ _ _ htile
    refine hord.imp ?_
    intro c1 c2 hle s hs1 hs2
    rw [chainAux, List.mem_range'_1] at hs1 hs2
    omega

/-- Witness for claim C9 at the build for ["wood burning stove"] (word
groups [20], [21], [22]), whose four chains use the disjoint auxiliary
pairs {8,9}, {10,11}, {12,13}, {14,15}. -/
theorem C9_aux_no_collision_witness :
    errOf [[[20], [21], [22]]] = none ∧
    ((∀ c ∈ chainsOf [[[20], [21], [22]]],
        8 ≤ c.lo ∧ c.lo + (c.words - 1) ≤ idxOf [[[20], [21], [22]]]) ∧
      List.Pairwise (fun c1 c2 => ∀ s, s ∈ chainAux c1 → s ∉ chainAux c2)
        (chainsOf [[[20], [21], [22]]])) :=
  ⟨rfl, C9_aux_no_collision [[[20], [21], [22]]] rfl⟩

end Updown

namespace Updown

/-! Fail-fast behavior for claim C7. -/

theorem branch1_err {i : Nat} {g : WordGroup} {st st2 : BuildSt}
    (hi : 3 ≤ i) : branch1 i g st ≠ .ok st2 := by
  intro h
  unfold branch1 at h
  split at h
  · exact Except.noConfusion h
  · rename_i st1 hw1
    split at h
    · exact Except.noConfusion h
    · rename_i stb hw2
      split at h
      · exact Except.noConfusion h
      · rename_i mp hmp
        have h3 := (getMapping_ok hmp).1
        omega

theorem branch2_err {i : Nat} {g1 g2 : WordGroup} {st st2 : BuildSt}
    (hi : 3 ≤ i) : branch2 i g1 g2 st ≠ .ok st2 := by
  intro h
  unfold branch2 at h
  split at h
  · exact Except.noConfusion h
  · rename_i st1 hw1
    split at h
    · exact Except.noConfusion h
    · rename_i stb hw2
      split at h
      · exact Except.noConfusion h
      · rename_i mp hmp
        have h3 := (getMapping_ok hmp).1
        omega

theorem branch3_err {i : Nat} {g1 g2 g3 : WordGroup} {st st2 : BuildSt}
    (hi : 3 ≤ i) : branch3 i g1 g2 g3 st ≠ .ok st2 := by
  intro h
  unfold branch3 at h
  split at h
  · exact Except.noConfusion h
  · rename_i st1 hw1
    split at h
    · exact Except.noConfusion h
    · rename_i stb hw2
      split at h
      · exact Except.noConfusion h
      · rename_i mp hmp
        have h3 := (getMapping_ok hmp).1
        omega

/-- Wiring a candidate with 1 to 3 words at candidate index ≥ 3 always
fails (`level_mapping[i]` raises). -/
theorem wireOne_err {i : Nat} {p : Phrase} {st st2 : BuildSt} (hi : 3 ≤ i)
    (hp : 1 ≤ p.length ∧ p.length ≤ 3) : wireOne i p st ≠ .ok st2 := by
  rcases p with _ | ⟨g1, _ | ⟨g2, _ | ⟨g3, _ | ⟨g4, rest⟩⟩⟩⟩
  · intro h
    simp at hp
  · exact branch1_err hi
  · exact branch2_err hi
  · exact branch3_err hi
  · intro h
    simp at hp

/-- A candidate loop that starts at index `i ≤ 3` and reaches index 3 on a
list of 1-to-3-word phrases never completes successfully. -/
theorem wireAll_err : ∀ (l : List Phrase) (i : Nat) (st st2 : BuildSt),
    (∀ p ∈ l, 1 ≤ p.length ∧ p.length ≤ 3) → i ≤ 3 → 3 < i + l.length →
    wireAll i l st ≠ .ok st2 := by
  intro l
  induction l with
  | nil =>
      intro i st st2 hp hi hlen h
      simp at hlen
      omega
  | cons p rest ih =>
      intro i st st2 hp hi hlen h
      unfold wireAll at h
      split at h
      · exact Except.noConfusion h
      · rename_i st1 h1
        by_cases hi3 : i = 3
        · subst hi3
          exact wireOne_err (le_refl 3) (hp p (List.mem_cons_self _ _)) h1
        · refine ih (i + 1) st1 st2
            (fun q hq => hp q (List.mem_cons_of_mem _ hq))
            (by omega) ?_ h
          simp at hlen
          omega

/-- Claim C7: precondition violations fail immediately and nothing is
silently truncated: `add_connect` and `init_row` on an unallocated tensor
fail with the assertion error; every successful build reports exactly
`len(candidates)` as its candidate count (no list is cut down to 3); and a
candidate list of more than 3 phrases of 1-3 words each always makes the
build fail (the `level_mapping[i]` lookup raises at index 3) rather than
return a truncated result. -/
theorem C7_fail_fast :
    (∀ (f dst : Nat) (g : List Nat),
      add_connect none f dst g = .error .assertFailed) ∧
    (∀ s : Nat, init_row none s = .error .assertFailed) ∧
    (∀ (cands : List Phrase) (r : Mat × Nat × Nat),
      CBSConstraint.get_state_matrix cands = .ok r →
      r.2.2 = cands.length) ∧
    (∀ cands : List Phrase, 3 < cands.length →
      (∀ p ∈ cands, 1 ≤ p.length ∧ p.length ≤ 3) →
      errOf cands ≠ none) := by
  refine ⟨fun f dst g => rfl, fun s => rfl, ?_, ?_⟩
  · intro cands r h
    unfold CBSConstraint.get_state_matrix at h
    split at h
    · exact Except.noConfusion h
    · injection h with h2
      rw [← h2]
  · intro cands hlen hp h
    obtain ⟨st, hst⟩ := ok_of_errOf_none h
    rw [get_state_matrix_st_eq] at hst
    exact wireAll_err cands 0 _ st hp (by omega) (by omega) hst

/-- Witness for claim C7: a connect and an initSelfLoop before allocation
fail with the assertion error, and the 4-single-word-candidate list is
rejected rather than truncated. -/
theorem C7_fail_fast_witness :
    add_connect none 0 1 [5] = .error .assertFailed ∧
    init_row none 4 = .error .assertFailed ∧
    errOf [[[1]], [[2]], [[3]], [[4]]] ≠ none := by
  refine ⟨C7_fail_fast.1 0 1 [5], C7_fail_fast.2.1 4, ?_⟩
  exact C7_fail_fast.2.2.2 [[[1]], [[2]], [[3]], [[4]]] (by decide) (by decide)

end Updown
